import Mathlib

/-!
Verification development for the wzrdbrain combo engine
(`src/wzrdbrain/wzrdbrain.py`, catalog-based generation).

The Python module is shallowly embedded:
  * the pydantic models `Mechanics`, `State`, `ExitState`, `Metadata`,
    `Move`, `MoveLibrary` become Lean structures;
  * pydantic's `MoveLibrary.model_validate` (the validation performed by
    `_load_move_library` on the parsed JSON document) becomes a validator
    over a small JSON value type;
  * the `MOVES` dict comprehension becomes a last-occurrence-wins lookup;
  * `Trick.__post_init__` / `Trick._resolve_relative` / `Trick.to_dict`
    become pure functions (dictionary lookups that can raise `KeyError`
    return `Option`);
  * `generate_combo` takes an explicit choice oracle `ch : Nat → Nat`
    modelling the stream of outcomes of `random.randint` / `random.choice`
    (draw `i` on a nonempty list `l` selects index `ch i % l.length`;
    `random.choice` on an empty list raises, modelled as `none`).
-/

namespace Wzrdbrain

/-- Pydantic model `Mechanics`. -/
structure Mechanics where
  feet : Int
  is_rotation : Bool
  degrees : Int
  rotation_type : String
  deriving DecidableEq, Repr

/-- Pydantic model `State` (entry state of a move). -/
structure State where
  direction : String
  edge : String
  stance : String
  point : String
  deriving DecidableEq, Repr

/-- Pydantic model `ExitState` (exit-state specification of a move). -/
structure ExitState where
  direction : String
  edge : String
  stance : String
  point : String
  lead_foot : String
  feet : Int
  deriving DecidableEq, Repr

/-- Pydantic model `Metadata` (all fields optional with defaults). -/
structure Metadata where
  is_fakie_variant : Bool := false
  description : Option String := none
  aka : List String := []
  deriving DecidableEq, Repr

/-- Pydantic model `Move`: one catalog record. -/
structure Move where
  id : String
  name : String
  category : String
  stage : Int
  mechanics : Mechanics
  entry : State
  exit : ExitState
  metadata : Metadata := {}
  deriving DecidableEq, Repr

/-- Pydantic model `MoveLibrary`: the whole catalog document. -/
structure MoveLibrary where
  version : String
  moves : List Move
  deriving DecidableEq, Repr

/-- The dict `MOVES = {move.id: move for move in _LIBRARY.moves}`:
a Python dict comprehension keeps the last occurrence of a duplicated key,
so lookup returns the last move in the list with the given id. -/
def MOVES (lib : List Move) (move_id : String) : Option Move :=
  lib.reverse.find? (fun m => m.id == move_id)

/-- The dataclass `Trick`: a move reference with resolved entry and exit
states (`direction`, `edge`, `stance`, `point` and their `exit_*`
counterparts), as produced by `Trick.__post_init__`. -/
structure Trick where
  move_id : String
  direction : String
  edge : String
  stance : String
  point : String
  exit_direction : String
  exit_edge : String
  exit_stance : String
  exit_point : String
  deriving DecidableEq, Repr

/-- `Trick._resolve_relative`: resolve a relative exit-state value against
the resolved entry value.  `"same"` copies the base, `"opposite"` flips it
through the `opposites` table (defaulting to the base itself when the base
is not a key of the table, per `dict.get(base, base)`), and anything else
is returned as-is. -/
def Trick.resolve_relative (value : String) (base : String) : String :=
  if value = "same" then base
  else if value = "opposite" then
    if base = "front" then "back"
    else if base = "back" then "front"
    else if base = "inside" then "outside"
    else if base = "outside" then "inside"
    else if base = "open" then "closed"
    else if base = "closed" then "open"
    else base
  else value

/-- The body of `Trick.__post_init__` once the move record is in hand:
entry states are copied from the library record, exit states are resolved
relative to them, and the exit point is copied verbatim. -/
def buildTrick (move_id : String) (move : Move) : Trick :=
  { move_id := move_id
    direction := move.entry.direction
    edge := move.entry.edge
    stance := move.entry.stance
    point := move.entry.point
    exit_direction := Trick.resolve_relative move.exit.direction move.entry.direction
    exit_edge := Trick.resolve_relative move.exit.edge move.entry.edge
    exit_stance := Trick.resolve_relative move.exit.stance move.entry.stance
    exit_point := move.exit.point }

/-- `Trick(move_id)`: `__post_init__` looks the id up in `MOVES`
(raising `KeyError`, i.e. `none`, if absent) and resolves the states. -/
def mkTrick (lib : List Move) (move_id : String) : Option Trick :=
  (MOVES lib move_id).map (buildTrick move_id)

/-- The trick built from a move record itself (what `Trick(m.id)` yields
when ids are unique in the catalog). -/
def trickOf (move : Move) : Trick :=
  buildTrick move.id move

/-- One entry/exit state block of `Trick.to_dict`'s output dict. -/
structure StateDict where
  direction : String
  edge : String
  stance : String
  point : String
  deriving DecidableEq, Repr

/-- The dict returned by `Trick.to_dict`. -/
structure TrickDict where
  id : String
  name : String
  category : String
  stage : Int
  entry : StateDict
  exit : StateDict
  deriving DecidableEq, Repr

/-- `Trick.to_dict`: looks the move up again in `MOVES` for its
presentation fields and serializes the resolved states. -/
def Trick.to_dict (lib : List Move) (t : Trick) : Option TrickDict :=
  (MOVES lib t.move_id).map fun move =>
    { id := t.move_id
      name := move.name
      category := move.category
      stage := move.stage
      entry := { direction := t.direction, edge := t.edge,
                 stance := t.stance, point := t.point }
      exit := { direction := t.exit_direction, edge := t.exit_edge,
                stance := t.exit_stance, point := t.exit_point } }

/-- `random.choice(l)` under the choice oracle: outcome `c` on list `l`
selects index `c % l.length`; on an empty list the call raises
(`IndexError`), modelled as `none`. -/
def pick {α : Type} (c : Nat) (l : List α) : Option α :=
  l[c % l.length]?

/-- The candidate filter of `generate_combo`'s inner loop: moves within
the stage ceiling whose entry direction and entry point equal the current
trick's resolved exit direction and exit point. -/
def candidatesFor (lib : List Move) (max_stage : Int)
    (exit_direction exit_point : String) : List Move :=
  lib.filter fun move =>
    !(decide (move.stage > max_stage)) &&
    (move.entry.direction == exit_direction && move.entry.point == exit_point)

/-- The `for _ in range(num_of_tricks - 1)` loop of `generate_combo`:
at draw index `i` with current trick `current_trick` and accumulated
`combo`, compute the candidate set, `break` (returning the combo so far)
if it is empty, otherwise pick a candidate, build its trick and recurse. -/
def comboLoop (lib : List Move) (max_stage : Int) (ch : Nat → Nat) :
    Nat → Trick → List Trick → Nat → Option (List Trick)
  | _, _, combo, 0 => some combo
  | i, current_trick, combo, fuel + 1 =>
    let candidates :=
      candidatesFor lib max_stage current_trick.exit_direction current_trick.exit_point
    if candidates.isEmpty then some combo
    else
      match pick (ch i) candidates with
      | none => none
      | some next_move =>
        match mkTrick lib next_move.id with
        | none => none
        | some t => comboLoop lib max_stage ch (i + 1) t (combo ++ [t]) fuel

/-- The defaulting step
`if num_of_tricks is None: num_of_tricks = random.randint(2, 5)`:
the effective target length, with draw 0 of the choice oracle standing
for the `randint(2, 5)` outcome. -/
def effLength (ch : Nat → Nat) : Option Int → Int
  | none => ((2 + ch 0 % 4 : Nat) : Int)
  | some k => k

/-- `generate_combo(num_of_tricks, max_stage)` under the choice oracle.
Draw 0 is `random.randint(2, 5)` (used only when `num_of_tricks` is
`None`), draw 1 is the opening `random.choice`, and the loop consumes
draws 2, 3, …  A Python exception (the opening `random.choice` on an
empty list, or a `KeyError` in `Trick.__post_init__` / `to_dict`) is
`none`; a normal return is `some` the list of trick dicts. -/
def generate_combo (lib : List Move) (ch : Nat → Nat)
    (num_of_tricks : Option Int) (max_stage : Int) : Option (List TrickDict) :=
  let n : Int := effLength ch num_of_tricks
  if n ≤ 0 then some []
  else
    let valid_start_moves := lib.filter fun m => decide (m.stage ≤ max_stage)
    match pick (ch 1) valid_start_moves with
    | none => none
    | some first_move =>
      match mkTrick lib first_move.id with
      | none => none
      | some current_trick =>
        match comboLoop lib max_stage ch 2 current_trick [current_trick] (n - 1).toNat with
        | none => none
        | some combo => combo.mapM (Trick.to_dict lib)

/-! ### Catalog loading (`_load_move_library`)

`_load_move_library` parses `moves.json` and runs
`MoveLibrary.model_validate` on the parsed document.  Pydantic validation
checks only that the required fields are present with the declared types
(strings for the state attributes, ints, bools, lists); it performs no
domain validation: any string is accepted for `exit.point`, and nothing
inspects `id` uniqueness.  We model the parsed JSON document and that
structural validation. -/

/-- A parsed JSON value (the output of `json.load`). -/
inductive Json where
  | null : Json
  | bool (b : Bool) : Json
  | num (n : Int) : Json
  | str (s : String) : Json
  | arr (xs : List Json) : Json
  | obj (fields : List (String × Json)) : Json

/-- Look a key up in a JSON object (first occurrence, as `json.load`
keeps the last duplicate key — duplicate keys do not occur in the
documents we consider). -/
def Json.get? (j : Json) (key : String) : Option Json :=
  match j with
  | .obj fields => (fields.find? (fun p => p.1 == key)).map (fun p => p.2)
  | _ => none

/-- Require a JSON string. -/
def Json.asStr : Json → Option String
  | .str s => some s
  | _ => none

/-- Require a JSON integer. -/
def Json.asInt : Json → Option Int
  | .num n => some n
  | _ => none

/-- Require a JSON boolean. -/
def Json.asBool : Json → Option Bool
  | .bool b => some b
  | _ => none

/-- Require a JSON array. -/
def Json.asArr : Json → Option (List Json)
  | .arr xs => some xs
  | _ => none

/-- Validate a `Mechanics` object: all four fields required. -/
def validateMechanics (j : Json) : Option Mechanics := do
  let feet ← (j.get? "feet").bind Json.asInt
  let is_rotation ← (j.get? "is_rotation").bind Json.asBool
  let degrees ← (j.get? "degrees").bind Json.asInt
  let rotation_type ← (j.get? "rotation_type").bind Json.asStr
  pure { feet := feet, is_rotation := is_rotation,
         degrees := degrees, rotation_type := rotation_type }

/-- Validate a `State` object: the four attributes, each any string. -/
def validateState (j : Json) : Option State := do
  let direction ← (j.get? "direction").bind Json.asStr
  let edge ← (j.get? "edge").bind Json.asStr
  let stance ← (j.get? "stance").bind Json.asStr
  let point ← (j.get? "point").bind Json.asStr
  pure { direction := direction, edge := edge, stance := stance, point := point }

/-- Validate an `ExitState` object: the four attributes plus
`lead_foot` and `feet`, each field any value of its declared type —
in particular `point` may be any string, `"same"` included. -/
def validateExitState (j : Json) : Option ExitState := do
  let direction ← (j.get? "direction").bind Json.asStr
  let edge ← (j.get? "edge").bind Json.asStr
  let stance ← (j.get? "stance").bind Json.asStr
  let point ← (j.get? "point").bind Json.asStr
  let lead_foot ← (j.get? "lead_foot").bind Json.asStr
  let feet ← (j.get? "feet").bind Json.asInt
  pure { direction := direction, edge := edge, stance := stance,
         point := point, lead_foot := lead_foot, feet := feet }

/-- Validate a `Metadata` object: every field optional with a default;
a present field must have the declared type. -/
def validateMetadata (j : Json) : Option Metadata := do
  let is_fakie_variant ←
    match j.get? "is_fakie_variant" with
    | none => some false
    | some .null => some false
    | some v => v.asBool
  let description ←
    match j.get? "description" with
    | none => some none
    | some .null => some none
    | some v => (v.asStr).map some
  let aka ←
    match j.get? "aka" with
    | none => some []
    | some .null => some []
    | some v => (v.asArr).bind (fun xs => xs.mapM Json.asStr)
  pure { is_fakie_variant := is_fakie_variant, description := description, aka := aka }

/-- Validate a `Move` record: required scalar fields plus the nested
models; `metadata` defaults to an empty `Metadata` when absent.
No cross-field or cross-record constraint is checked. -/
def validateMove (j : Json) : Option Move := do
  let id ← (j.get? "id").bind Json.asStr
  let name ← (j.get? "name").bind Json.asStr
  let category ← (j.get? "category").bind Json.asStr
  let stage ← (j.get? "stage").bind Json.asInt
  let mechanics ← (j.get? "mechanics").bind validateMechanics
  let entry ← (j.get? "entry").bind validateState
  let exitState ← (j.get? "exit").bind validateExitState
  let metadata ←
    match j.get? "metadata" with
    | none => some {}
    | some v => validateMetadata v
  pure { id := id, name := name, category := category, stage := stage,
         mechanics := mechanics, entry := entry, exit := exitState,
         metadata := metadata }

/-- `MoveLibrary.model_validate(data)` as performed by
`_load_move_library`: `version` must be a string and `moves` a list of
valid `Move` records.  `none` models a raised `ValidationError`
(the only failure mode of the load after JSON parsing). -/
def validateMoveLibrary (j : Json) : Option MoveLibrary := do
  let version ← (j.get? "version").bind Json.asStr
  let movesJson ← (j.get? "moves").bind Json.asArr
  let moves ← movesJson.mapM validateMove
  pure { version := version, moves := moves }

/-! ### Concrete fixture catalogs

Small well-formed catalogs used to instantiate the theorems below.
`demoA` and `demoB` form a two-state cycle on `(direction, point)`:
`demoA` goes `front/heel → back/heel`, `demoB` goes back. -/

/-- Mechanics block shared by the fixture moves. -/
def demoMechanics : Mechanics :=
  { feet := 2, is_rotation := false, degrees := 0, rotation_type := "none" }

/-- Fixture move `a`: entry `front/inside/open/heel`, exit direction
`"opposite"` (resolves to `back`), exit point `heel`, stage 1. -/
def demoA : Move :=
  { id := "a", name := "alpha", category := "basic", stage := 1
    mechanics := demoMechanics
    entry := { direction := "front", edge := "inside", stance := "open", point := "heel" }
    exit := { direction := "opposite", edge := "same", stance := "same",
              point := "heel", lead_foot := "left", feet := 2 } }

/-- Fixture move `b`: entry `back/inside/open/heel`, exit direction
`"opposite"` (resolves to `front`), exit point `heel`, stage 2. -/
def demoB : Move :=
  { id := "b", name := "beta", category := "basic", stage := 2
    mechanics := demoMechanics
    entry := { direction := "back", edge := "inside", stance := "open", point := "heel" }
    exit := { direction := "opposite", edge := "same", stance := "same",
              point := "heel", lead_foot := "left", feet := 2 } }

/-- The two-move fixture catalog. -/
def demoLib : List Move := [demoA, demoB]

/-- The constantly-zero choice oracle (every `random.choice` takes the
first element, `random.randint(2, 5)` returns 2). -/
def ch0 : Nat → Nat := fun _ => 0

/-- JSON record of a catalog move with a given `id` and exit `point`
(all other fields fixed, well-typed values). -/
def moveJson (id point : String) : Json :=
  .obj [("id", .str id), ("name", .str "test move"), ("category", .str "basic"),
        ("stage", .num 1),
        ("mechanics", .obj [("feet", .num 2), ("is_rotation", .bool false),
                            ("degrees", .num 0), ("rotation_type", .str "none")]),
        ("entry", .obj [("direction", .str "front"), ("edge", .str "inside"),
                        ("stance", .str "open"), ("point", .str "heel")]),
        ("exit", .obj [("direction", .str "same"), ("edge", .str "same"),
                       ("stance", .str "same"), ("point", .str point),
                       ("lead_foot", .str "left"), ("feet", .num 2)])]

/-- A catalog document whose single record carries the relative literal
`"same"` as its exit point. -/
def jsonSamePoint : Json :=
  .obj [("version", .str "1.0"), ("moves", .arr [moveJson "a" "same"])]

/-- A catalog document with two records sharing the id `"a"`. -/
def jsonDupIds : Json :=
  .obj [("version", .str "1.0"),
        ("moves", .arr [moveJson "a" "heel", moveJson "a" "toe"])]

/-- The `Move` that validating `moveJson id point` produces. -/
def parsedMove (id point : String) : Move :=
  { id := id, name := "test move", category := "basic", stage := 1
    mechanics := { feet := 2, is_rotation := false, degrees := 0,
                   rotation_type := "none" }
    entry := { direction := "front", edge := "inside", stance := "open",
               point := "heel" }
    exit := { direction := "same", edge := "same", stance := "same",
              point := point, lead_foot := "left", feet := 2 }
    metadata := {} }

/-! ### Fixture outputs used to instantiate the theorems -/

/-- The dict serializing `Trick("a")` over `demoLib`. -/
def dA : TrickDict :=
  { id := "a", name := "alpha", category := "basic", stage := 1
    entry := { direction := "front", edge := "inside", stance := "open", point := "heel" }
    exit := { direction := "back", edge := "inside", stance := "open", point := "heel" } }

/-- The dict serializing `Trick("b")` over `demoLib`. -/
def dB : TrickDict :=
  { id := "b", name := "beta", category := "basic", stage := 2
    entry := { direction := "back", edge := "inside", stance := "open", point := "heel" }
    exit := { direction := "front", edge := "inside", stance := "open", point := "heel" } }

/-- The combo `generate_combo(3, 5)` produces over `demoLib` under the
constantly-zero choice oracle. -/
def demoCombo : List TrickDict := [dA, dB, dA]

/-! ### Derived notions used by the specification -/

/-- Physical continuity between two resolved tricks: the earlier trick's
resolved exit direction and exit point equal the later trick's resolved
entry direction and entry point. -/
def trickLink (a b : Trick) : Prop :=
  a.exit_direction = b.direction ∧ a.exit_point = b.point

/-- Physical continuity between two serialized trick dicts. -/
def dictLink (a b : TrickDict) : Prop :=
  a.exit.direction = b.entry.direction ∧ a.exit.point = b.entry.point

/-- The dict that `Trick(m.id).to_dict()` produces in a catalog with
unique ids. -/
def dictOf (m : Move) : TrickDict :=
  { id := m.id
    name := m.name
    category := m.category
    stage := m.stage
    entry := { direction := m.entry.direction, edge := m.entry.edge,
               stance := m.entry.stance, point := m.entry.point }
    exit := { direction := (trickOf m).exit_direction, edge := (trickOf m).exit_edge,
              stance := (trickOf m).exit_stance, point := (trickOf m).exit_point } }

/-- `noDeadEnds lib s k dir pt` holds when, in the `(direction, point)`
transition graph of catalog moves with stage at most `s`, every node
reachable from `(dir, pt)` in fewer than `k` steps has at least one
outgoing candidate: a walk starting at `(dir, pt)` can always be
extended for `k` more steps. -/
def noDeadEnds (lib : List Move) (max_stage : Int) :
    Nat → String → String → Bool
  | 0, _, _ => true
  | fuel + 1, dir, pt =>
    let cs := candidatesFor lib max_stage dir pt
    !cs.isEmpty && cs.all fun m =>
      noDeadEnds lib max_stage fuel (trickOf m).exit_direction (trickOf m).exit_point

/-- How many leading outcomes of the choice stream a
`generate_combo` call can consume: draw 0 (the length draw), draw 1
(the opening choice) and one draw per continuation slot. -/
def chBound : Option Int → Nat
  | some n => n.toNat + 1
  | none => 7

/-- The resolution rule stated by the specification for one exit-state
attribute: `out` is the resolution of specification value `v` against
resolved entry value `base` when `"same"` copies the base, `"opposite"`
flips through the pairing `front↔back`, `inside↔outside`, `open↔closed`,
and any other value is used as-is. -/
def resolvesAs (v base out : String) : Prop :=
  (v = "same" → out = base) ∧
  (v = "opposite" →
    (base = "front" → out = "back") ∧ (base = "back" → out = "front") ∧
    (base = "inside" → out = "outside") ∧ (base = "outside" → out = "inside") ∧
    (base = "open" → out = "closed") ∧ (base = "closed" → out = "open")) ∧
  (v ≠ "same" → v ≠ "opposite" → out = v)

/-! ### Basic lemmas -/

theorem pick_mem {α : Type} {c : Nat} {l : List α} {a : α}
    (h : pick c l = some a) : a ∈ l := by
  unfold pick at h
  exact List.getElem?_mem h

theorem pick_isSome {α : Type} (c : Nat) {l : List α} (h : l ≠ []) :
    ∃ a, pick c l = some a ∧ a ∈ l := by
  have hlt : c % l.length < l.length := Nat.mod_lt _ (List.length_pos.mpr h)
  exact ⟨l[c % l.length], by simp [pick, List.getElem?_eq_getElem hlt],
    List.getElem_mem hlt⟩

theorem MOVES_isSome {lib : List Move} {m : Move} (hm : m ∈ lib) :
    (MOVES lib m.id).isSome := by
  rw [MOVES, List.find?_isSome]
  exact ⟨m, List.mem_reverse.mpr hm, by simp⟩

theorem MOVES_nodup {lib : List Move} (hnd : (lib.map Move.id).Nodup)
    {m : Move} (hm : m ∈ lib) : MOVES lib m.id = some m := by
  induction lib with
  | nil => cases hm
  | cons a rest ih =>
    rw [List.map_cons, List.nodup_cons] at hnd
    rw [MOVES, List.reverse_cons, List.find?_append]
    rcases List.mem_cons.mp hm with rfl | hm'
    · have hnone : rest.reverse.find? (fun x => x.id == m.id) = none := by
        rw [List.find?_eq_none]
        intro x hx
        simp only [beq_iff_eq]
        intro hid
        exact hnd.1 (hid ▸ List.mem_map_of_mem Move.id (List.mem_reverse.mp hx))
      simp [hnone]
    · have := ih hnd.2 hm'
      rw [MOVES] at this
      simp [this]

theorem mkTrick_nodup {lib : List Move} (hnd : (lib.map Move.id).Nodup)
    {m : Move} (hm : m ∈ lib) : mkTrick lib m.id = some (trickOf m) := by
  rw [mkTrick, MOVES_nodup hnd hm]
  rfl

theorem mkTrick_isSome {lib : List Move} {m : Move} (hm : m ∈ lib) :
    ∃ t, mkTrick lib m.id = some t ∧ t.move_id = m.id := by
  rcases Option.isSome_iff_exists.mp (MOVES_isSome hm) with ⟨m', hm'⟩
  exact ⟨buildTrick m.id m', by rw [mkTrick, hm']; rfl, rfl⟩

theorem mem_candidatesFor {lib : List Move} {s : Int} {d p : String} {m : Move} :
    m ∈ candidatesFor lib s d p ↔
      m ∈ lib ∧ m.stage ≤ s ∧ m.entry.direction = d ∧ m.entry.point = p := by
  simp only [candidatesFor, List.mem_filter, Bool.and_eq_true, Bool.not_eq_true',
    decide_eq_false_iff_not, not_lt, beq_iff_eq, and_assoc]

theorem mapM_eq_map {α β : Type} {f : α → Option β} {g : α → β} :
    ∀ {l : List α}, (∀ a ∈ l, f a = some (g a)) → l.mapM f = some (l.map g)
  | [], _ => rfl
  | a :: l, h => by
    rw [List.mapM_cons, h a (List.mem_cons_self a l),
      mapM_eq_map (fun x hx => h x (List.mem_cons_of_mem a hx))]
    rfl

theorem mapM_isSome {α β : Type} {f : α → Option β} :
    ∀ {l : List α}, (∀ a ∈ l, (f a).isSome) → ∃ l', l.mapM f = some l'
  | [], _ => ⟨[], rfl⟩
  | a :: l, h => by
    rcases Option.isSome_iff_exists.mp (h a (List.mem_cons_self a l)) with ⟨b, hb⟩
    rcases mapM_isSome (fun x hx => h x (List.mem_cons_of_mem a hx)) with ⟨l', hl'⟩
    exact ⟨b :: l', by rw [List.mapM_cons, hb, hl']; rfl⟩

theorem mapM_length {α β : Type} {f : α → Option β} :
    ∀ {l : List α} {l' : List β}, l.mapM f = some l' → l'.length = l.length
  | [], l', h => by
    rw [List.mapM_nil] at h
    cases h
    rfl
  | a :: l, l', h => by
    rw [List.mapM_cons] at h
    cases hb : f a with
    | none => rw [hb] at h; cases h
    | some b =>
      rw [hb] at h
      cases hl : l.mapM f with
      | none => rw [hl] at h; cases h
      | some bs =>
        rw [hl] at h
        cases h
        simp [mapM_length hl]

theorem to_dict_trickOf {lib : List Move} (hnd : (lib.map Move.id).Nodup)
    {m : Move} (hm : m ∈ lib) :
    Trick.to_dict lib (trickOf m) = some (dictOf m) := by
  have : (trickOf m).move_id = m.id := rfl
  rw [Trick.to_dict, this, MOVES_nodup hnd hm]
  rfl

theorem mapM_to_dict_trickOf {lib : List Move} (hnd : (lib.map Move.id).Nodup) :
    ∀ {ms : List Move}, (∀ m ∈ ms, m ∈ lib) →
      (ms.map trickOf).mapM (Trick.to_dict lib) = some (ms.map dictOf)
  | [], _ => rfl
  | m :: ms, h => by
    rw [List.map_cons, List.mapM_cons, to_dict_trickOf hnd (h m (List.mem_cons_self m ms)),
      mapM_to_dict_trickOf hnd (fun x hx => h x (List.mem_cons_of_mem m hx))]
    rfl

theorem resolve_relative_spec (v base : String) :
    resolvesAs v base (Trick.resolve_relative v base) := by
  refine ⟨fun hv => ?_, fun hv => ?_, fun hv hv' => ?_⟩
  · simp [Trick.resolve_relative, hv]
  · subst hv
    refine ⟨fun hb => ?_, fun hb => ?_, fun hb => ?_, fun hb => ?_,
      fun hb => ?_, fun hb => ?_⟩ <;> simp [Trick.resolve_relative, hb]
  · simp [Trick.resolve_relative, hv, hv']

/-! ### Properties of the generation loop -/

theorem comboLoop_spec {lib : List Move} {s : Int} {ch : Nat → Nat}
    (hnd : (lib.map Move.id).Nodup) :
    ∀ {fuel i : Nat} {cur : Trick} {combo out : List Trick},
      comboLoop lib s ch i cur combo fuel = some out →
      ∃ ms : List Move, out = combo ++ ms.map trickOf ∧
        (∀ m ∈ ms, m ∈ lib ∧ m.stage ≤ s) ∧
        List.Chain' trickLink (cur :: ms.map trickOf) ∧
        ms.length ≤ fuel := by
  intro fuel
  induction fuel with
  | zero =>
    intro i cur combo out h
    simp only [comboLoop] at h
    cases h
    exact ⟨[], by simp, by simp, by simp, by simp⟩
  | succ fuel ih =>
    intro i cur combo out h
    simp only [comboLoop] at h
    split at h
    · cases h
      exact ⟨[], by simp, by simp, by simp, by simp⟩
    · split at h
      · cases h
      · rename_i next_move hp
        split at h
        · cases h
        · rename_i t hmk
          have hcand := pick_mem hp
          rcases mem_candidatesFor.mp hcand with ⟨hm_lib, hm_stage, hdir, hpt⟩
          have ht : t = trickOf next_move := by
            rw [mkTrick_nodup hnd hm_lib] at hmk
            exact (Option.some.inj hmk).symm
          subst ht
          rcases ih h with ⟨ms, hout, hmem, hchain, hlen⟩
          refine ⟨next_move :: ms, ?_, ?_, ?_, ?_⟩
          · rw [hout, List.map_cons, List.append_assoc]
            rfl
          · intro m hm
            rcases List.mem_cons.mp hm with rfl | hm'
            · exact ⟨hm_lib, hm_stage⟩
            · exact hmem m hm'
          · rw [List.map_cons, List.chain'_cons]
            exact ⟨⟨hdir.symm, hpt.symm⟩, hchain⟩
          · simpa using Nat.succ_le_succ hlen

theorem comboLoop_isSome {lib : List Move} {s : Int} {ch : Nat → Nat} :
    ∀ (fuel i : Nat) (cur : Trick) (combo : List Trick),
      (∀ t ∈ combo, (MOVES lib t.move_id).isSome) →
      ∃ out, comboLoop lib s ch i cur combo fuel = some out ∧
        combo.length ≤ out.length ∧ ∀ t ∈ out, (MOVES lib t.move_id).isSome := by
  intro fuel
  induction fuel with
  | zero =>
    intro i cur combo hcombo
    exact ⟨combo, rfl, Nat.le_refl _, hcombo⟩
  | succ fuel ih =>
    intro i cur combo hcombo
    simp only [comboLoop]
    by_cases hemp :
        (candidatesFor lib s cur.exit_direction cur.exit_point).isEmpty
    · rw [if_pos hemp]
      exact ⟨combo, rfl, Nat.le_refl _, hcombo⟩
    · rw [if_neg hemp]
      have hne : candidatesFor lib s cur.exit_direction cur.exit_point ≠ [] := by
        simpa [List.isEmpty_iff] using hemp
      rcases pick_isSome (ch i) hne with ⟨next_move, hp, hmem⟩
      rw [hp]
      dsimp only
      have hm_lib : next_move ∈ lib := (mem_candidatesFor.mp hmem).1
      rcases mkTrick_isSome hm_lib with ⟨t, hmk, htid⟩
      rw [hmk]
      dsimp only
      have hcombo' : ∀ u ∈ combo ++ [t], (MOVES lib u.move_id).isSome := by
        intro u hu
        rcases List.mem_append.mp hu with hu' | hu'
        · exact hcombo u hu'
        · rw [List.mem_singleton] at hu'
          subst hu'
          rw [htid]
          exact MOVES_isSome hm_lib
      rcases ih (i + 1) t (combo ++ [t]) hcombo' with ⟨out, hloop, hlen, hall⟩
      refine ⟨out, hloop, ?_, hall⟩
      calc combo.length ≤ (combo ++ [t]).length := by simp
        _ ≤ out.length := hlen

theorem comboLoop_noDeadEnds {lib : List Move} {s : Int} {ch : Nat → Nat}
    (hnd : (lib.map Move.id).Nodup) :
    ∀ (fuel i : Nat) (cur : Trick) (combo : List Trick),
      noDeadEnds lib s fuel cur.exit_direction cur.exit_point = true →
      ∃ out, comboLoop lib s ch i cur combo fuel = some out ∧
        out.length = combo.length + fuel := by
  intro fuel
  induction fuel with
  | zero =>
    intro i cur combo _
    exact ⟨combo, rfl, rfl⟩
  | succ fuel ih =>
    intro i cur combo hnde
    simp only [noDeadEnds, Bool.and_eq_true, Bool.not_eq_true',
      List.all_eq_true] at hnde
    obtain ⟨hempF, hall⟩ := hnde
    simp only [comboLoop]
    rw [if_neg (by simp [hempF])]
    have hne : candidatesFor lib s cur.exit_direction cur.exit_point ≠ [] := by
      simpa [List.isEmpty_iff] using hempF
    rcases pick_isSome (ch i) hne with ⟨next_move, hp, hmem⟩
    rw [hp]
    dsimp only
    have hm_lib : next_move ∈ lib := (mem_candidatesFor.mp hmem).1
    rw [mkTrick_nodup hnd hm_lib]
    dsimp only
    rcases ih (i + 1) (trickOf next_move) (combo ++ [trickOf next_move])
        (hall next_move hmem) with ⟨out, hloop, hlen⟩
    refine ⟨out, hloop, ?_⟩
    rw [hlen]
    simp
    omega

theorem comboLoop_congr {lib : List Move} {s : Int} {ch ch' : Nat → Nat} :
    ∀ (fuel i : Nat) (cur : Trick) (combo : List Trick),
      (∀ j, i ≤ j → j < i + fuel → ch j = ch' j) →
      comboLoop lib s ch i cur combo fuel = comboLoop lib s ch' i cur combo fuel := by
  intro fuel
  induction fuel with
  | zero => intro i cur combo _; rfl
  | succ fuel ih =>
    intro i cur combo h
    simp only [comboLoop]
    split
    · rfl
    · rw [h i (Nat.le_refl _) (by omega)]
      cases hp : pick (ch' i) (candidatesFor lib s cur.exit_direction cur.exit_point) with
      | none => rfl
      | some next_move =>
        dsimp only
        cases hmk : mkTrick lib next_move.id with
        | none => rfl
        | some t =>
          dsimp only
          exact ih (i + 1) t (combo ++ [t]) fun j hj1 hj2 => h j (by omega) (by omega)

/-- Characterization of a successful `generate_combo` run over a catalog
with unique ids: either the empty combo (nonpositive target), or a chain
of catalog moves within the stage ceiling, opened by the picked start
move, serialized through `dictOf`. -/
theorem generate_combo_moves {lib : List Move} {ch : Nat → Nat}
    {num : Option Int} {s : Int} (hnd : (lib.map Move.id).Nodup)
    {combo : List TrickDict} (h : generate_combo lib ch num s = some combo) :
    combo = [] ∨
    ∃ (first_move : Move) (ms : List Move),
      pick (ch 1) (lib.filter fun m => decide (m.stage ≤ s)) = some first_move ∧
      (∀ m ∈ first_move :: ms, m ∈ lib ∧ m.stage ≤ s) ∧
      List.Chain' trickLink ((first_move :: ms).map trickOf) ∧
      combo = (first_move :: ms).map dictOf := by
  simp only [generate_combo] at h
  split at h
  · cases h
    exact Or.inl rfl
  · split at h
    · cases h
    · rename_i first_move hp
      have hfm := pick_mem hp
      rw [List.mem_filter] at hfm
      obtain ⟨hfm_lib, hfm_stage⟩ := hfm
      rw [decide_eq_true_eq] at hfm_stage
      split at h
      · cases h
      · rename_i t₀ hmk
        have ht₀ : t₀ = trickOf first_move := by
          rw [mkTrick_nodup hnd hfm_lib] at hmk
          exact (Option.some.inj hmk).symm
        subst ht₀
        split at h
        · cases h
        · rename_i tricksOut hloop
          rcases comboLoop_spec hnd hloop with ⟨ms, houtEq, hmem, hchain, _⟩
          have hms_lib : ∀ m ∈ ms, m ∈ lib := fun m hm => (hmem m hm).1
          have hdicts :
              tricksOut.mapM (Trick.to_dict lib) =
                some ((first_move :: ms).map dictOf) := by
            rw [houtEq]
            have : trickOf first_move :: ms.map trickOf =
                (first_move :: ms).map trickOf := rfl
            rw [List.singleton_append, this]
            exact mapM_to_dict_trickOf hnd (by
              intro m hm
              rcases List.mem_cons.mp hm with rfl | hm'
              · exact hfm_lib
              · exact hms_lib m hm')
          rw [hdicts] at h
          refine Or.inr ⟨first_move, ms, hp, ?_, ?_, (Option.some.inj h).symm⟩
          · intro m hm
            rcases List.mem_cons.mp hm with rfl | hm'
            · exact ⟨hfm_lib, hfm_stage⟩
            · exact hmem m hm'
          · exact hchain

/-! ### Claims -/

/-- Claim C1: for every combo returned by `generate_combo` over a
well-formed catalog (unique ids), any target length and any stage
ceiling, every adjacent pair of tricks satisfies continuity: the earlier
trick's resolved exit direction equals the later trick's resolved entry
direction, and likewise for the resolved exit and entry points. -/
theorem generate_combo_continuity (lib : List Move) (ch : Nat → Nat)
    (num : Option Int) (s : Int) (hnd : (lib.map Move.id).Nodup)
    (combo : List TrickDict) (h : generate_combo lib ch num s = some combo) :
    List.Chain' dictLink combo := by
  rcases generate_combo_moves hnd h with rfl | ⟨fm, ms, _, _, hchain, rfl⟩
  · simp
  · rw [List.chain'_map] at hchain ⊢
    exact List.Chain'.imp (fun a b hab => hab) hchain

theorem generate_combo_continuity_witness :
    (demoLib.map Move.id).Nodup ∧
    generate_combo demoLib ch0 (some 3) 5 = some demoCombo ∧
    List.Chain' dictLink demoCombo :=
  ⟨by decide, by decide,
    generate_combo_continuity demoLib ch0 (some 3) 5 (by decide) demoCombo (by decide)⟩

/-- Claim C6: every trick dict in a combo generated with stage ceiling
`s` reports a stage at most `s` — the opening trick included. -/
theorem generate_combo_stage_le (lib : List Move) (ch : Nat → Nat)
    (num : Option Int) (s : Int) (hnd : (lib.map Move.id).Nodup)
    (combo : List TrickDict) (h : generate_combo lib ch num s = some combo) :
    ∀ d ∈ combo, d.stage ≤ s := by
  rcases generate_combo_moves hnd h with rfl | ⟨fm, ms, _, hmem, _, rfl⟩
  · simp
  · intro d hd
    rw [List.mem_map] at hd
    rcases hd with ⟨m, hm, rfl⟩
    exact (hmem m hm).2

theorem generate_combo_stage_le_witness :
    (demoLib.map Move.id).Nodup ∧
    generate_combo demoLib ch0 (some 3) 5 = some demoCombo ∧
    ∀ d ∈ demoCombo, d.stage ≤ 5 :=
  ⟨by decide, by decide,
    generate_combo_stage_le demoLib ch0 (some 3) 5 (by decide) demoCombo (by decide)⟩

/-- Claim C7: for every nonpositive target length and every stage
ceiling, `generate_combo` returns the empty combo without raising. -/
theorem generate_combo_nonpos (lib : List Move) (ch : Nat → Nat)
    (s : Int) (n : Int) (hn : n ≤ 0) :
    generate_combo lib ch (some n) s = some [] := by
  simp only [generate_combo, effLength]
  rw [if_pos hn]

theorem generate_combo_nonpos_witness :
    (0 : Int) ≤ 0 ∧ generate_combo demoLib ch0 (some 0) 5 = some [] :=
  ⟨le_refl 0, generate_combo_nonpos demoLib ch0 5 0 (le_refl 0)⟩

/-- Claim C4: for a trick built from a catalog move (unique ids), each
exit-state attribute other than the point resolves from the move's exit
specification and the resolved entry value by the rule: absolute value
as-is, `"same"` copies the entry value, `"opposite"` flips through the
pairing front↔back, inside↔outside, open↔closed; the exit point is
copied verbatim from the specification. -/
theorem trick_exit_resolution (lib : List Move) (m : Move) (t : Trick)
    (hnd : (lib.map Move.id).Nodup) (hm : m ∈ lib)
    (ht : mkTrick lib m.id = some t) :
    resolvesAs m.exit.direction t.direction t.exit_direction ∧
    resolvesAs m.exit.edge t.edge t.exit_edge ∧
    resolvesAs m.exit.stance t.stance t.exit_stance ∧
    t.exit_point = m.exit.point := by
  rw [mkTrick_nodup hnd hm] at ht
  have ht' : trickOf m = t := Option.some.inj ht
  subst ht'
  exact ⟨resolve_relative_spec _ _, resolve_relative_spec _ _,
    resolve_relative_spec _ _, rfl⟩

theorem trick_exit_resolution_witness :
    (demoLib.map Move.id).Nodup ∧ demoA ∈ demoLib ∧
    mkTrick demoLib demoA.id = some (trickOf demoA) ∧
    (resolvesAs demoA.exit.direction (trickOf demoA).direction
        (trickOf demoA).exit_direction ∧
      resolvesAs demoA.exit.edge (trickOf demoA).edge (trickOf demoA).exit_edge ∧
      resolvesAs demoA.exit.stance (trickOf demoA).stance (trickOf demoA).exit_stance ∧
      (trickOf demoA).exit_point = demoA.exit.point) :=
  ⟨by decide, by decide, by decide,
    trick_exit_resolution demoLib demoA (trickOf demoA) (by decide) (by decide) (by decide)⟩

/-- Claim C9: `_resolve_relative` is total over arbitrary strings: a
value that is neither `"same"` nor `"opposite"` is returned unchanged,
and `"opposite"` against a base outside the six paired values returns
the base unchanged rather than failing. -/
theorem resolve_relative_default (v base : String) :
    (v ≠ "same" → v ≠ "opposite" → Trick.resolve_relative v base = v) ∧
    (v = "opposite" →
      base ∉ (["front", "back", "inside", "outside", "open", "closed"] : List String) →
      Trick.resolve_relative v base = base) := by
  constructor
  · intro h1 h2
    simp [Trick.resolve_relative, h1, h2]
  · intro hv hb
    subst hv
    simp only [List.mem_cons, List.not_mem_nil, or_false, not_or] at hb
    obtain ⟨h1, h2, h3, h4, h5, h6⟩ := hb
    simp [Trick.resolve_relative, h1, h2, h3, h4, h5, h6]

theorem resolve_relative_default_witness :
    Trick.resolve_relative "sideways" "front" = "sideways" ∧
    Trick.resolve_relative "opposite" "uphill" = "uphill" :=
  ⟨(resolve_relative_default "sideways" "front").1 (by decide) (by decide),
    (resolve_relative_default "opposite" "uphill").2 rfl (by decide)⟩

/-- Totality of `generate_combo` when some catalog move passes the stage
ceiling: no code path raises, and a positive requested length yields at
least the opening trick. -/
theorem generate_combo_some_aux (lib : List Move) (ch : Nat → Nat)
    (num : Option Int) (s : Int) (h : ∃ m ∈ lib, m.stage ≤ s) :
    ∃ combo, generate_combo lib ch num s = some combo ∧
      (¬ effLength ch num ≤ 0 → 1 ≤ combo.length) := by
  simp only [generate_combo]
  by_cases hn0 : effLength ch num ≤ 0
  · rw [if_pos hn0]
    exact ⟨[], rfl, fun hc => absurd hn0 hc⟩
  · rw [if_neg hn0]
    rcases h with ⟨m, hm, hstage⟩
    have hne : (lib.filter fun m => decide (m.stage ≤ s)) ≠ [] := by
      intro heq
      have hmem : m ∈ lib.filter fun m => decide (m.stage ≤ s) :=
        List.mem_filter.mpr ⟨hm, decide_eq_true hstage⟩
      rw [heq] at hmem
      cases hmem
    rcases pick_isSome (ch 1) hne with ⟨fm, hp, hfm⟩
    rw [hp]
    dsimp only
    have hfm_lib : fm ∈ lib := (List.mem_filter.mp hfm).1
    rcases mkTrick_isSome hfm_lib with ⟨t₀, hmk, htid⟩
    rw [hmk]
    dsimp only
    have h0 : ∀ u ∈ [t₀], (MOVES lib u.move_id).isSome := by
      intro u hu
      rw [List.mem_singleton] at hu
      subst hu
      rw [htid]
      exact MOVES_isSome hfm_lib
    rcases comboLoop_isSome ((effLength ch num - 1).toNat) 2 t₀ [t₀] h0 with
      ⟨out, hloop, hlen, hall⟩
    rw [hloop]
    dsimp only
    have hdict : ∀ t ∈ out, ((Trick.to_dict lib) t).isSome := by
      intro t ht
      rcases Option.isSome_iff_exists.mp (hall t ht) with ⟨mv, hmv⟩
      rw [Trick.to_dict, hmv]
      rfl
    rcases mapM_isSome hdict with ⟨combo, hcombo⟩
    rw [hcombo]
    refine ⟨combo, rfl, fun _ => ?_⟩
    rw [mapM_length hcombo]
    calc 1 = [t₀].length := rfl
      _ ≤ out.length := hlen

/-- Claim C2 (amended): `generate_combo` never raises provided at least
one catalog move is within the stage ceiling; with an empty eligible set
and a positive (or defaulted) target length, the opening `random.choice`
raises `IndexError` — see the counterexample below. -/
theorem generate_combo_total (lib : List Move) (ch : Nat → Nat)
    (num : Option Int) (s : Int) (h : ∃ m ∈ lib, m.stage ≤ s) :
    ∃ combo, generate_combo lib ch num s = some combo := by
  rcases generate_combo_some_aux lib ch num s h with ⟨combo, hc, _⟩
  exact ⟨combo, hc⟩

theorem generate_combo_total_witness :
    (∃ m ∈ demoLib, m.stage ≤ 5) ∧
    ∃ combo, generate_combo demoLib ch0 (some 3) 5 = some combo :=
  ⟨⟨demoA, by decide, by decide⟩,
    generate_combo_total demoLib ch0 (some 3) 5 ⟨demoA, by decide, by decide⟩⟩

/-- Claim C2 counterexample: over the well-formed catalog `demoLib`
(unique ids, valid fields) with target length 2 and stage ceiling 0 no
move qualifies, and `generate_combo` raises (`random.choice` on the
empty `valid_start_moves` list) instead of returning a combo. -/
theorem generate_combo_empty_start_raises :
    generate_combo demoLib ch0 (some 2) 0 = none := by decide

/-- Claim C10: with a positive requested length and at least one catalog
move within the stage ceiling, the returned combo is non-empty: the
opening trick is appended before any continuity filtering can stop the
walk. -/
theorem generate_combo_nonempty (lib : List Move) (ch : Nat → Nat)
    (n s : Int) (hn : 1 ≤ n) (h : ∃ m ∈ lib, m.stage ≤ s) :
    ∃ combo, generate_combo lib ch (some n) s = some combo ∧
      1 ≤ combo.length := by
  rcases generate_combo_some_aux lib ch (some n) s h with ⟨combo, hc, hlen⟩
  refine ⟨combo, hc, hlen ?_⟩
  have he : effLength ch (some n) = n := rfl
  omega

theorem generate_combo_nonempty_witness :
    (1 : Int) ≤ 1 ∧ (∃ m ∈ demoLib, m.stage ≤ 5) ∧
    ∃ combo, generate_combo demoLib ch0 (some 1) 5 = some combo ∧
      1 ≤ combo.length :=
  ⟨le_refl 1, ⟨demoA, by decide, by decide⟩,
    generate_combo_nonempty demoLib ch0 1 5 (le_refl 1) ⟨demoA, by decide, by decide⟩⟩

/-- Claim C5: for target length `n ≥ 1` over a catalog with unique ids,
a returned combo has length at most `n`; and exactly `n` whenever the
`(direction, point)` transition graph restricted to the stage ceiling
has no dead ends within the walk's horizon from the chosen opening
move's resolved exit state. -/
theorem generate_combo_length_bound (lib : List Move) (ch : Nat → Nat)
    (n s : Int) (hn : 1 ≤ n) (hnd : (lib.map Move.id).Nodup)
    (combo : List TrickDict)
    (h : generate_combo lib ch (some n) s = some combo) :
    combo.length ≤ n.toNat ∧
    (∀ first_move,
      pick (ch 1) (lib.filter fun m => decide (m.stage ≤ s)) = some first_move →
      noDeadEnds lib s (n - 1).toNat (trickOf first_move).exit_direction
        (trickOf first_move).exit_point = true →
      combo.length = n.toNat) := by
  simp only [generate_combo, effLength] at h
  rw [if_neg (by omega)] at h
  split at h
  · cases h
  · rename_i fm hp
    have hfm := pick_mem hp
    rw [List.mem_filter] at hfm
    obtain ⟨hfm_lib, _⟩ := hfm
    split at h
    · cases h
    · rename_i t₀ hmk
      have ht₀ : t₀ = trickOf fm := by
        rw [mkTrick_nodup hnd hfm_lib] at hmk
        exact (Option.some.inj hmk).symm
      subst ht₀
      split at h
      · cases h
      · rename_i tricksOut hloop
        have hclen : combo.length = tricksOut.length := mapM_length h
        rcases comboLoop_spec hnd hloop with ⟨ms, houtEq, _, _, hmslen⟩
        constructor
        · rw [hclen, houtEq]
          simp only [List.length_append, List.length_map, List.length_singleton]
          omega
        · intro fm' hp' hnde
          have hfm' : fm' = fm := Option.some.inj (hp' ▸ hp ▸ rfl)
          rw [hfm'] at hnde
          rcases comboLoop_noDeadEnds hnd ((n - 1).toNat) 2 (trickOf fm)
              [trickOf fm] hnde with ⟨out', hloop', hlen'⟩
          rw [hloop'] at hloop
          have hout' : out' = tricksOut := Option.some.inj hloop
          subst hout'
          rw [hclen, hlen']
          simp only [List.length_singleton]
          omega

theorem generate_combo_length_bound_witness :
    ((1 : Int) ≤ 3 ∧ (demoLib.map Move.id).Nodup ∧
      generate_combo demoLib ch0 (some 3) 5 = some demoCombo) ∧
    demoCombo.length ≤ (3 : Int).toNat ∧
    demoCombo.length = (3 : Int).toNat :=
  ⟨⟨by decide, by decide, by decide⟩,
    (generate_combo_length_bound demoLib ch0 3 5 (by decide) (by decide)
      demoCombo (by decide)).1,
    (generate_combo_length_bound demoLib ch0 3 5 (by decide) (by decide)
      demoCombo (by decide)).2 demoA (by decide) (by decide)⟩

/-- Claim C8: `generate_combo` is a pure function of the catalog, the
arguments and the outcomes of the random draws: two choice oracles that
agree on every draw the call can consume produce identical combos. -/
theorem generate_combo_deterministic (lib : List Move) (ch ch' : Nat → Nat)
    (num : Option Int) (s : Int)
    (h : ∀ i, i < chBound num → ch i = ch' i) :
    generate_combo lib ch num s = generate_combo lib ch' num s := by
  cases num with
  | some n =>
    simp only [generate_combo, effLength]
    by_cases hn : n ≤ 0
    · rw [if_pos hn, if_pos hn]
    · rw [if_neg hn, if_neg hn]
      rw [h 1 (by simp only [chBound]; omega)]
      cases hp : pick (ch' 1) (lib.filter fun m => decide (m.stage ≤ s)) with
      | none => rfl
      | some fm =>
        dsimp only
        cases hmk : mkTrick lib fm.id with
        | none => rfl
        | some t₀ =>
          dsimp only
          rw [comboLoop_congr ((n - 1).toNat) 2 t₀ [t₀]
            (fun j hj1 hj2 => h j (by simp only [chBound] at *; omega))]
  | none =>
    have h0 : ch 0 = ch' 0 := h 0 (by simp [chBound])
    simp only [generate_combo, effLength, h0]
    have hmod : ch' 0 % 4 < 4 := Nat.mod_lt _ (by omega)
    have hpos : ¬ ((2 + ch' 0 % 4 : Nat) : Int) ≤ 0 := by omega
    rw [if_neg hpos, if_neg hpos]
    rw [h 1 (by simp [chBound])]
    cases hp : pick (ch' 1) (lib.filter fun m => decide (m.stage ≤ s)) with
    | none => rfl
    | some fm =>
      dsimp only
      cases hmk : mkTrick lib fm.id with
      | none => rfl
      | some t₀ =>
        dsimp only
        rw [comboLoop_congr ((((2 + ch' 0 % 4 : Nat) : Int) - 1).toNat) 2 t₀ [t₀]
          (fun j hj1 hj2 => h j (by simp only [chBound] at *; omega))]

theorem generate_combo_deterministic_witness :
    (∀ i, i < chBound (some 3) → ch0 i = ch0 i) ∧
    generate_combo demoLib ch0 (some 3) 5 = generate_combo demoLib ch0 (some 3) 5 :=
  ⟨fun _ _ => rfl,
    generate_combo_deterministic demoLib ch0 ch0 (some 3) 5 (fun _ _ => rfl)⟩

/-- Claim C3 counterexample: `MoveLibrary.model_validate` accepts both a
catalog whose record has exit point `"same"` and a catalog with two
records sharing an id — neither load fails. -/
theorem catalog_load_accepts_invalid :
    (validateMoveLibrary jsonSamePoint).isSome = true ∧
    (validateMoveLibrary jsonDupIds).isSome = true := by decide

/-- Claim C3 (amended): loading performs only structural validation
(field presence and declared types), so a catalog record with the
relative literal `"same"` as its exit point loads successfully, and a
catalog with two records sharing an id loads successfully — in both
cases silently, with the offending data preserved. -/
theorem catalog_load_structural_only :
    validateMoveLibrary jsonSamePoint =
      some { version := "1.0", moves := [parsedMove "a" "same"] } ∧
    (parsedMove "a" "same").exit.point = "same" ∧
    validateMoveLibrary jsonDupIds =
      some { version := "1.0",
             moves := [parsedMove "a" "heel", parsedMove "a" "toe"] } ∧
    ¬ (([parsedMove "a" "heel", parsedMove "a" "toe"]).map Move.id).Nodup := by
  refine ⟨by decide, rfl, by decide, by decide⟩

end Wzrdbrain
